import Mathlib

/-!
Verification development for the checkpoint-and-exit bridge
(`consensus/polybft/checkpoint_manager.go`).

The Go code is shallowly embedded: machine integers become `Nat`
(block numbers, epoch numbers and IDs never approach 2^64 in the
modelled scenarios, and the Go code performs no wrapping arithmetic
on them), byte strings become `List Nat`, fallible calls return
`Except Err`, and the mutable store becomes explicit state passing.
External collaborators (blockchain backend, root-chain relayer,
consensus backend) are parameters of the functions that use them,
mirroring the interfaces the Go struct `checkpointManager` holds.
-/

/-- Errors produced by the checkpoint manager.  Each constructor stands for
one distinct error site / error value of the Go code. -/
inductive Err where
  /-- `block %d was not found` in `submitCheckpoint` -/
  | blockNotFound (n : Nat)
  /-- `GetIbftExtra` failure: header extra data does not decode -/
  | decodeExtra (n : Nat)
  /-- transient RPC failure of a root-chain `Call` -/
  | rpcCall
  /-- `SendTransaction` failure -/
  | sendTx (n : Nat)
  /-- `checkpoint submission transaction failed for block %d` (receipt status) -/
  | txFailed (n : Nat)
  /-- `GetValidators` failure in `encodeAndSendCheckpoint` -/
  | getValidators (n : Nat)
  /-- exit event with given ID absent from the store (NotFound) -/
  | exitEventNotFound (id : Nat)
  /-- `checkpoint block not found for exit ID %d` (isFound = false) -/
  | checkpointBlockNotFound (id : Nat)
  /-- store read failure -/
  | storeRead
  /-- store write failure in `insertExitEvents` -/
  | insertFailed
  /-- store write failure in `updateLastSaved` -/
  | updateFailed
  /-- store write failure in `removeSlashExitEvents` -/
  | removeFailed
  /-- `failed to retrieve pending slash exit ids` -/
  | pendingReadFailed
  /-- target leaf not present in the Merkle tree (`LeafIndex` failure) -/
  | leafNotFound
  /-- `merkle.NewMerkleTree` called with an empty leaf list -/
  | emptyTree
  /-- structural decode failure of a log (`decodeExitEvent` / `ParseLog`) -/
  | decodeLog
  deriving DecidableEq, Repr

/-- `ExitEvent` of the Go code: the persisted record of a cross-chain exit.
`id`, `sender/receiver/data` (collapsed into `data`) form the embedded
`L2StateSyncedEvent`; `epochNumber` and `blockNumber` are bookkeeping
fields not part of the ABI encoding. -/
structure ExitEvent where
  id : Nat
  epochNumber : Nat
  blockNumber : Nat
  data : List Nat
  deriving DecidableEq, Repr

/-- ABI encoding of the embedded `L2StateSyncedEvent`
(`exitEventAPI.Encode`): covers the event ID and payload, but not the
local bookkeeping fields `epochNumber` / `blockNumber`. -/
def encodeExit (e : ExitEvent) : List Nat :=
  e.id :: e.data

/-- The checkpoint portion of a header's decoded extra
(`Extra.Checkpoint` of the Go code). -/
structure CheckpointData where
  epochNumber : Nat
  blockRound : Nat
  currentValidatorsHash : Nat
  eventRoot : Nat
  deriving DecidableEq, Repr

/-- Decoded header extra (`Extra` of the Go code).  `validators` is
`some _` exactly when the header carries a validator-set delta, i.e.
when the header is an epoch-ending block; `committedSignature` /
`committedBitmap` stand for `Extra.Committed`. -/
structure Extra where
  checkpoint : CheckpointData
  committedSignature : Nat
  committedBitmap : Nat
  validators : Option (List Nat)
  deriving DecidableEq, Repr

/-- A block header (`types.Header`).  `extraData` holds the decoded
extra when the raw bytes decode, `none` when `GetIbftExtra` would fail. -/
structure Header where
  number : Nat
  hash : Nat
  miner : List Nat
  extraData : Option Extra
  deriving DecidableEq, Repr

/-- `GetIbftExtra`: decode the extra of a header, failing when the raw
bytes are malformed. -/
def GetIbftExtra (h : Header) : Except Err Extra :=
  match h.extraData with
  | some e => .ok e
  | none => .error (.decodeExtra h.number)

/-- One checkpoint submission sent to the root chain: the fields
ABI-encoded by `abiEncodeCheckpointBlock` plus the `isEndOfEpoch` tag,
and the whole `extra` the submission was built from. -/
structure Submission where
  blockNumber : Nat
  blockHash : Nat
  epochNumber : Nat
  blockRound : Nat
  currentValidatorsHash : Nat
  eventRoot : Nat
  signature : Nat
  bitmap : Nat
  isEndOfEpoch : Bool
  nextValidatorSet : List Nat
  extra : Extra
  deriving DecidableEq, Repr

/-- External collaborators of `submitCheckpoint` /
`encodeAndSendCheckpoint`: the blockchain backend, the consensus
backend, and the root-chain relayer (its two relevant entry points). -/
structure SubmitEnv where
  /-- `blockchain.GetHeaderByNumber` -/
  getHeaderByNumber : Nat → Option Header
  /-- `consensusBackend.GetValidators(blockNumber, nil)` -/
  getValidators : Nat → Except Err (List Nat)
  /-- `getLatestCheckpointBlock` (root-chain `currentCheckpointBlockNumber` call) -/
  latestCheckpointBlock : Except Err Nat
  /-- outcome of `SendTransaction` + receipt-status check for a
  checkpoint transaction, keyed by the checkpointed block number -/
  send : Nat → Except Err Unit

/-- `encodeAndSendCheckpoint`: fetch the next validator set when the
block ends an epoch, ABI-encode the checkpoint payload, send the
transaction, fail on a failed receipt.  Returns the submission that was
sent. -/
def encodeAndSendCheckpoint (env : SubmitEnv) (header : Header) (extra : Extra)
    (isEndOfEpoch : Bool) : Except Err Submission := do
  let nextValidators ←
    if isEndOfEpoch then env.getValidators header.number else pure []
  let sub : Submission :=
    { blockNumber := header.number
      blockHash := header.hash
      epochNumber := extra.checkpoint.epochNumber
      blockRound := extra.checkpoint.blockRound
      currentValidatorsHash := extra.checkpoint.currentValidatorsHash
      eventRoot := extra.checkpoint.eventRoot
      signature := extra.committedSignature
      bitmap := extra.committedBitmap
      isEndOfEpoch := isEndOfEpoch
      nextValidatorSet := nextValidators
      extra := extra }
  let _ ← env.send header.number
  return sub

/-- The catch-up loop of `submitCheckpoint` (`for blockNumber := ...`):
walk block numbers up to `latest.number` inclusive, submitting a
checkpoint for the parent header at every epoch boundary.  `acc` is the
list of submissions sent so far, `currentExtra` the Go variable of the
same name (set on every iteration).  Returns the submissions and the
final value of `currentExtra`. -/
def catchupLoopAux (env : SubmitEnv) (fuel blockNumber : Nat)
    (parentHeader : Header) (parentExtra : Extra)
    (acc : List Submission) (currentExtra : Option Extra) :
    Except Err (List Submission × Option Extra) :=
  match fuel with
  | 0 => .ok (acc, currentExtra)
  | fuel + 1 =>
    match env.getHeaderByNumber blockNumber with
    | none => .error (.blockNotFound blockNumber)
    | some currentHeader =>
      match GetIbftExtra currentHeader with
      | .error e => .error e
      | .ok cExtra =>
        if blockNumber == 1 ||
            parentExtra.checkpoint.epochNumber == cExtra.checkpoint.epochNumber then
          catchupLoopAux env fuel (blockNumber + 1) currentHeader cExtra acc (some cExtra)
        else
          match encodeAndSendCheckpoint env parentHeader parentExtra true with
          | .error e => .error e
          | .ok sub =>
            catchupLoopAux env fuel (blockNumber + 1) currentHeader cExtra
              (acc ++ [sub]) (some cExtra)

/-- The loop, entered at `blockNumber` with upper bound
`latest.number` inclusive: the remaining iteration count
`latest.number + 1 - blockNumber` is zero exactly when the Go loop
condition `blockNumber <= latestHeader.Number` fails. -/
def catchupLoop (env : SubmitEnv) (latest : Header) (blockNumber : Nat)
    (parentHeader : Header) (parentExtra : Extra)
    (acc : List Submission) (currentExtra : Option Extra) :
    Except Err (List Submission × Option Extra) :=
  catchupLoopAux env (latest.number + 1 - blockNumber) blockNumber
    parentHeader parentExtra acc currentExtra

/-- `submitCheckpoint`: query the root chain for the last accepted
checkpoint block, walk forward over the missed range submitting one
checkpoint per epoch-ending block, then submit the checkpoint for
`latest` itself (decoding `latest`'s extra directly when the walk never
ran).  Returns the submissions in the order they were sent. -/
def submitCheckpoint (env : SubmitEnv) (latest : Header) (isEndOfEpoch : Bool) :
    Except Err (List Submission) := do
  let lastCheckpointBlockNumber ← env.latestCheckpointBlock
  let initialBlockNumber := lastCheckpointBlockNumber + 1
  if initialBlockNumber < latest.number then
    match env.getHeaderByNumber initialBlockNumber with
    | none => .error (.blockNotFound initialBlockNumber)
    | some parentHeader => do
      let parentExtra ← GetIbftExtra parentHeader
      let (subs, lastExtra) ←
        catchupLoop env latest (initialBlockNumber + 1) parentHeader parentExtra [] none
      let finalExtra ←
        match lastExtra with
        | some cE => pure cE
        | none => GetIbftExtra latest
      let sub ← encodeAndSendCheckpoint env latest finalExtra isEndOfEpoch
      return subs ++ [sub]
  else do
    let finalExtra ← GetIbftExtra latest
    let sub ← encodeAndSendCheckpoint env latest finalExtra isEndOfEpoch
    return [sub]

/-!
## Merkle tree model

Modelled from the spec: the repository's `merkle-tree` package
(`merkle.NewMerkleTree`, `tree.Hash`, `tree.LeafIndex`,
`tree.GenerateProof`) is not under `src/`; the spec describes it as a
deterministic Merkle tree over a leaf list with root hash, leaf index
lookup and inclusion proofs.  Hashes are modelled as values of a free
term algebra `MHash`, so hashing is injective (an idealised,
collision-free hash): `leaf` hashes one leaf's bytes, `node` combines
two child hashes.  A tree level of odd width carries its last element
up unpaired.
-/

/-- An idealised hash value: the free algebra of leaf hashing and
child-pair combination. -/
inductive MHash where
  | leaf (d : List Nat)
  | node (a b : MHash)
  deriving DecidableEq, Repr

/-- Default hash used with `List.getD` (never read at in-bounds indices). -/
def mhDefault : MHash := .leaf []

/-- Combine one tree level into the next: pair adjacent elements,
carrying a trailing unpaired element up unchanged. -/
def pairUp : List MHash → List MHash
  | [] => []
  | [a] => [a]
  | a :: b :: rest => .node a b :: pairUp rest

theorem pairUp_length (l : List MHash) : (pairUp l).length = (l.length + 1) / 2 := by
  match l with
  | [] => simp [pairUp]
  | [a] => simp [pairUp]
  | a :: b :: rest =>
    have ih := pairUp_length rest
    simp [pairUp, ih]
    omega

/-- Fuel-bounded iteration of `pairUp`; `l.length` units of fuel always
suffice (each round at least halves a level of width two or more). -/
def buildRootAux (fuel : Nat) (l : List MHash) : Option MHash :=
  match l with
  | [] => none
  | [a] => some a
  | a :: b :: rest =>
    match fuel with
    | 0 => none
    | fuel + 1 => buildRootAux fuel (pairUp (a :: b :: rest))

/-- Root of the Merkle tree over a level: iterate `pairUp` down to a
single hash; `none` for an empty leaf list (the Go constructor rejects
empty input). -/
def buildRoot (l : List MHash) : Option MHash :=
  buildRootAux l.length l

/-- Any two sufficient fuel amounts give the same result. -/
theorem buildRootAux_congr (f1 f2 : Nat) (l : List MHash)
    (h1 : l.length ≤ f1 + 1) (h2 : l.length ≤ f2 + 1) :
    buildRootAux f1 l = buildRootAux f2 l := by
  match l, f1, f2 with
  | [], _, _ => simp [buildRootAux]
  | [a], _, _ => simp [buildRootAux]
  | a :: b :: rest, 0, _ => simp at h1
  | a :: b :: rest, _ + 1, 0 => simp at h2
  | a :: b :: rest, g1 + 1, g2 + 1 =>
    have hp := pairUp_length (a :: b :: rest)
    simp only [List.length_cons] at h1 h2 hp
    show buildRootAux g1 (pairUp (a :: b :: rest)) = buildRootAux g2 (pairUp (a :: b :: rest))
    refine buildRootAux_congr g1 g2 (pairUp (a :: b :: rest)) ?_ ?_ <;> (rw [hp]; omega)

/-- Unfolding equation of `buildRoot` on a level of width two or more. -/
theorem buildRoot_cons2 (a b : MHash) (rest : List MHash) :
    buildRoot (a :: b :: rest) = buildRoot (pairUp (a :: b :: rest)) := by
  have hp := pairUp_length (a :: b :: rest)
  simp only [List.length_cons] at hp
  show buildRootAux (rest.length + 2) (a :: b :: rest) =
    buildRootAux (pairUp (a :: b :: rest)).length (pairUp (a :: b :: rest))
  have hstep : buildRootAux (rest.length + 2) (a :: b :: rest) =
      buildRootAux (rest.length + 1) (pairUp (a :: b :: rest)) := rfl
  rw [hstep]
  exact buildRootAux_congr _ _ _ (by rw [hp]; omega) (by omega)

/-- Index of the sibling of position `i` within a tree level. -/
def sibIdx (i : Nat) : Nat := if i % 2 == 0 then i + 1 else i - 1

theorem sibIdx_add_two (i : Nat) : sibIdx (i + 2) = sibIdx i + 2 := by
  unfold sibIdx
  rcases Nat.mod_two_eq_zero_or_one i with h | h <;> (simp [h, Nat.add_mod_right]; try omega)

/-- The (zero or one) proof steps contributed by one tree level for the
element at index `i`: the sibling hash tagged with the side the current
element is on (`true` = current element is the right child). -/
def siblingStep (level : List MHash) (i : Nat) : List (Bool × MHash) :=
  if sibIdx i < level.length then [(i % 2 == 1, level.getD (sibIdx i) mhDefault)] else []

/-- Fuel-bounded proof generation; `l.length` units of fuel always
suffice. -/
def genProofAux (fuel : Nat) (l : List MHash) (i : Nat) : List (Bool × MHash) :=
  match l with
  | [] => []
  | [_] => []
  | a :: b :: rest =>
    match fuel with
    | 0 => []
    | fuel + 1 =>
      siblingStep (a :: b :: rest) i ++ genProofAux fuel (pairUp (a :: b :: rest)) (i / 2)

/-- Inclusion proof for the element at index `i` of a level: the level's
step followed by the proof within the next level. -/
def genProof (l : List MHash) (i : Nat) : List (Bool × MHash) :=
  genProofAux l.length l i

/-- Any two sufficient fuel amounts give the same proof. -/
theorem genProofAux_congr (f1 f2 : Nat) (l : List MHash) (i : Nat)
    (h1 : l.length ≤ f1 + 1) (h2 : l.length ≤ f2 + 1) :
    genProofAux f1 l i = genProofAux f2 l i := by
  match l, f1, f2 with
  | [], _, _ => simp [genProofAux]
  | [a], _, _ => simp [genProofAux]
  | a :: b :: rest, 0, _ => simp at h1
  | a :: b :: rest, _ + 1, 0 => simp at h2
  | a :: b :: rest, g1 + 1, g2 + 1 =>
    have hp := pairUp_length (a :: b :: rest)
    simp only [List.length_cons] at h1 h2 hp
    show siblingStep (a :: b :: rest) i ++ genProofAux g1 (pairUp (a :: b :: rest)) (i / 2) =
      siblingStep (a :: b :: rest) i ++ genProofAux g2 (pairUp (a :: b :: rest)) (i / 2)
    rw [genProofAux_congr g1 g2 (pairUp (a :: b :: rest)) (i / 2)
      (by rw [hp]; omega) (by rw [hp]; omega)]

/-- Unfolding equation of `genProof` on a level of width two or more. -/
theorem genProof_cons2 (a b : MHash) (rest : List MHash) (i : Nat) :
    genProof (a :: b :: rest) i =
      siblingStep (a :: b :: rest) i ++ genProof (pairUp (a :: b :: rest)) (i / 2) := by
  have hp := pairUp_length (a :: b :: rest)
  simp only [List.length_cons] at hp
  show genProofAux (rest.length + 2) (a :: b :: rest) i =
    siblingStep (a :: b :: rest) i ++
      genProofAux (pairUp (a :: b :: rest)).length (pairUp (a :: b :: rest)) (i / 2)
  have hstep : genProofAux (rest.length + 2) (a :: b :: rest) i =
      siblingStep (a :: b :: rest) i ++
        genProofAux (rest.length + 1) (pairUp (a :: b :: rest)) (i / 2) := rfl
  rw [hstep]
  congr 1
  exact genProofAux_congr _ _ _ _ (by rw [hp]; omega) (by omega)

/-- Recompute the root implied by a leaf hash and a proof path. -/
def recomputeRoot (leafHash : MHash) (proof : List (Bool × MHash)) : MHash :=
  proof.foldl (fun acc s => if s.1 then .node s.2 acc else .node acc s.2) leafHash

/-- Verify an inclusion proof against a root. -/
def verifyProof (proof : List (Bool × MHash)) (leafHash root : MHash) : Bool :=
  recomputeRoot leafHash proof == root

theorem recomputeRoot_append (x : MHash) (p q : List (Bool × MHash)) :
    recomputeRoot x (p ++ q) = recomputeRoot (recomputeRoot x p) q := by
  simp [recomputeRoot, List.foldl_append]

/-- One level of proof verification is correct: applying the level's
step to the element at `i` yields the parent element at `i / 2`. -/
theorem siblingStep_correct (level : List MHash) (i : Nat) (h : i < level.length) :
    recomputeRoot (level.getD i mhDefault) (siblingStep level i) =
      (pairUp level).getD (i / 2) mhDefault := by
  match level, i with
  | [a], 0 => simp [siblingStep, sibIdx, recomputeRoot, pairUp]
  | a :: b :: rest, 0 => simp [siblingStep, sibIdx, recomputeRoot, pairUp]
  | a :: b :: rest, 1 => simp [siblingStep, sibIdx, recomputeRoot, pairUp]
  | a :: b :: rest, (i + 2) =>
    have h' : i < rest.length := by simp at h; omega
    have ih := siblingStep_correct rest i h'
    have hsib := sibIdx_add_two i
    have hget : (a :: b :: rest).getD (i + 2) mhDefault = rest.getD i mhDefault := by
      simp [List.getD]
    have hgetP : (pairUp (a :: b :: rest)).getD ((i + 2) / 2) mhDefault =
        (pairUp rest).getD (i / 2) mhDefault := by
      have : (i + 2) / 2 = i / 2 + 1 := by omega
      simp [pairUp, this, List.getD]
    rw [hget, hgetP, ← ih]
    unfold siblingStep
    rw [hsib]
    have hmod : (i + 2) % 2 = i % 2 := by omega
    by_cases hc : sibIdx i < rest.length
    · have hc2 : sibIdx i + 2 < (a :: b :: rest).length := by simp; omega
      simp only [if_pos hc, if_pos hc2, hmod]
      have : (a :: b :: rest).getD (sibIdx i + 2) mhDefault =
          rest.getD (sibIdx i) mhDefault := by simp [List.getD]
      rw [this]
    · have hc2 : ¬ (sibIdx i + 2 < (a :: b :: rest).length) := by simp; omega
      simp only [if_neg hc, if_neg hc2]

/-- An inclusion proof generated from a level recomputes exactly that
level's root. -/
theorem recomputeRoot_genProof (l : List MHash) (i : Nat) (h : i < l.length)
    (r : MHash) (hr : buildRoot l = some r) :
    recomputeRoot (l.getD i mhDefault) (genProof l i) = r := by
  match l with
  | [a] =>
    have hi : i = 0 := by simp at h; omega
    simp [buildRoot, buildRootAux] at hr
    simp [hi, genProof, genProofAux, recomputeRoot, List.getD, hr]
  | a :: b :: rest =>
    have hroot : buildRoot (a :: b :: rest) = buildRoot (pairUp (a :: b :: rest)) :=
      buildRoot_cons2 a b rest
    have hlen : (pairUp (a :: b :: rest)).length = ((a :: b :: rest).length + 1) / 2 :=
      pairUp_length _
    have hi2 : i / 2 < (pairUp (a :: b :: rest)).length := by
      simp at h
      rw [hlen]
      simp
      omega
    have ih := recomputeRoot_genProof (pairUp (a :: b :: rest)) (i / 2) hi2 r
      (by rw [← hroot]; exact hr)
    rw [genProof_cons2, recomputeRoot_append, siblingStep_correct _ _ h, ih]
  termination_by l.length
  decreasing_by
    have := pairUp_length (a :: b :: rest)
    simp at this ⊢
    omega

/-- `pairUp` is injective on levels of equal width. -/
theorem pairUp_inj (l1 l2 : List MHash) (hlen : l1.length = l2.length)
    (h : pairUp l1 = pairUp l2) : l1 = l2 := by
  match l1, l2 with
  | [], [] => rfl
  | [], [_] => simp at hlen
  | [], _ :: _ :: _ => simp at hlen
  | [_], [] => simp at hlen
  | [_], _ :: _ :: _ => simp at hlen
  | _ :: _ :: _, [] => simp at hlen
  | _ :: _ :: _, [_] => simp at hlen
  | [a], [a'] => simpa [pairUp] using h
  | a :: b :: r, a' :: b' :: r' =>
    simp only [pairUp, List.cons.injEq, MHash.node.injEq] at h
    obtain ⟨⟨ha, hb⟩, hr⟩ := h
    have hlen' : r.length = r'.length := by simp at hlen; omega
    have := pairUp_inj r r' hlen' hr
    simp [ha, hb, this]

/-- `buildRoot` is injective on leaf lists of equal length: two
different lists yield different roots. -/
theorem buildRoot_inj (l1 l2 : List MHash) (hlen : l1.length = l2.length)
    (h : buildRoot l1 = buildRoot l2) : l1 = l2 := by
  match l1, l2 with
  | [], [] => rfl
  | [], [_] => simp at hlen
  | [], _ :: _ :: _ => simp at hlen
  | [_], [] => simp at hlen
  | [_], _ :: _ :: _ => simp at hlen
  | _ :: _ :: _, [] => simp at hlen
  | _ :: _ :: _, [_] => simp at hlen
  | [a], [a'] => simpa [buildRoot, buildRootAux] using h
  | a :: b :: r, a' :: b' :: r' =>
    rw [buildRoot_cons2, buildRoot_cons2] at h
    have hplen : (pairUp (a :: b :: r)).length = (pairUp (a' :: b' :: r')).length := by
      rw [pairUp_length, pairUp_length, hlen]
    have := buildRoot_inj (pairUp (a :: b :: r)) (pairUp (a' :: b' :: r')) hplen h
    exact pairUp_inj _ _ hlen this
  termination_by l1.length
  decreasing_by
    have := pairUp_length (a :: b :: r)
    simp at this ⊢
    omega

/-- A nonempty level always has a root. -/
theorem buildRoot_isSome (l : List MHash) (h : l ≠ []) : (buildRoot l).isSome := by
  match l with
  | [a] => simp [buildRoot, buildRootAux]
  | a :: b :: rest =>
    rw [buildRoot_cons2]
    exact buildRoot_isSome (pairUp (a :: b :: rest)) (by simp [pairUp])
  termination_by l.length
  decreasing_by
    have := pairUp_length (a :: b :: rest)
    simp at this ⊢
    omega

/-- `tree.LeafIndex`: position of a leaf's encoding within the leaf
list. -/
def leafIndexOf (leaves : List (List Nat)) (e : List Nat) : Option Nat :=
  match leaves with
  | [] => none
  | x :: rest => if x == e then some 0 else (leafIndexOf rest e).map (· + 1)

theorem leafIndexOf_spec (leaves : List (List Nat)) (e : List Nat) (i : Nat)
    (h : leafIndexOf leaves e = some i) :
    i < leaves.length ∧ leaves.getD i [] = e := by
  match leaves with
  | [] => simp [leafIndexOf] at h
  | x :: rest =>
    by_cases hx : x = e
    · simp [leafIndexOf, hx] at h
      subst h
      simp [List.getD, hx]
    · simp [leafIndexOf, hx] at h
      obtain ⟨j, hj, hji⟩ := h
      obtain ⟨h1, h2⟩ := leafIndexOf_spec rest e j hj
      subst hji
      constructor
      · simp
        omega
      · simpa [List.getD_cons_succ] using h2

/-!
## Sorting of exit events by ID

`PostBlock` sorts extracted exit events ascending by ID
(`sort.Slice` with `exitEvents[i].ID.Cmp(exitEvents[j].ID) < 0`)
before persisting them.
-/

/-- The comparison used by `PostBlock`'s sort: ascending event ID. -/
def idLe (a b : ExitEvent) : Prop := a.id ≤ b.id

/-- Strict version of `idLe`, used to state canonical-order facts. -/
def idLt (a b : ExitEvent) : Prop := a.id < b.id

instance : DecidableRel idLe := fun a b => Nat.decLe a.id b.id

instance : DecidableRel idLt := fun a b => Nat.decLt a.id b.id

instance : IsTotal ExitEvent idLe := ⟨fun a b => Nat.le_total a.id b.id⟩

instance : IsTrans ExitEvent idLe := ⟨fun _ _ _ => Nat.le_trans⟩

instance : IsAntisymm ExitEvent idLt :=
  ⟨fun a _ h1 h2 => absurd (Nat.lt_trans h1 h2) (Nat.lt_irrefl a.id)⟩

/-- The ID-ascending sort applied by `PostBlock` before insertion. -/
def sortByID (l : List ExitEvent) : List ExitEvent := List.insertionSort idLe l

/-!
## Exit event store

Modelled from the spec: the `State` / `ExitEventStore` boltDb layer is
not under `src/`.  Per the spec it is durable ordered storage of exit
events keyed by `(epoch, id)` preserving the (ID-sorted) insertion
order, a pending-slash-exit-ID set, and a single last-processed-block
watermark; reads are `getExitEventsByEpoch`, `getExitEventsForProof`
(restricted to `BlockNumber ≤ maxBlockNumber`), point lookup
`getExitEvent` (NotFound when absent), and idempotent
`removeSlashExitEvents`.
-/

/-- The persistent state owned by the exit event store. -/
structure StoreState where
  exitEvents : List ExitEvent
  lastSaved : Nat
  pendingSlash : List Nat
  deriving DecidableEq, Repr

/-- `insertExitEvents`: append events (no-op on the empty list). -/
def insertExitEvents (st : StoreState) (evs : List ExitEvent) : StoreState :=
  { st with exitEvents := st.exitEvents ++ evs }

/-- `updateLastSaved`: advance the watermark. -/
def updateLastSaved (st : StoreState) (block : Nat) : StoreState :=
  { st with lastSaved := block }

/-- `removeSlashExitEvents`: idempotent bulk delete from the
pending-slash queue; absent IDs are ignored. -/
def removeSlashExitEvents (st : StoreState) (ids : List Nat) : StoreState :=
  { st with pendingSlash := st.pendingSlash.filter (fun i => !(ids.contains i)) }

/-- `getExitEventsByEpoch`: all stored exit events of an epoch, in
stored order. -/
def getExitEventsByEpoch (st : StoreState) (epoch : Nat) : List ExitEvent :=
  st.exitEvents.filter (fun e => e.epochNumber == epoch)

/-- `getExitEventsForProof`: the epoch's stored exit events with
`BlockNumber ≤ maxBlockNumber`, in stored order. -/
def getExitEventsForProof (st : StoreState) (epoch maxBlockNumber : Nat) : List ExitEvent :=
  st.exitEvents.filter (fun e => e.epochNumber == epoch && decide (e.blockNumber ≤ maxBlockNumber))

/-- `getExitEvent`: point lookup by exit ID, NotFound when absent. -/
def getExitEvent (st : StoreState) (exitID : Nat) : Except Err ExitEvent :=
  match st.exitEvents.find? (fun e => e.id == exitID) with
  | some e => .ok e
  | none => .error (.exitEventNotFound exitID)

/-!
## Event-root construction (`BuildEventRoot`, `createExitTree`)
-/

/-- `types.ZeroHash`, the designated root of an empty epoch. -/
def zeroHash : MHash := .leaf []

/-- Leaf hashes of an exit-event list: each event's ABI encoding,
hashed, in list order (`createExitTree`'s `data` array). -/
def exitLeaves (evs : List ExitEvent) : List MHash :=
  evs.map (fun e => .leaf (encodeExit e))

/-- `createExitTree`: Merkle tree over the events' encodings (returned
here as its root; `none` on an empty leaf list, which the Go tree
constructor rejects with an error). -/
def createExitTree (evs : List ExitEvent) : Option MHash :=
  buildRoot (exitLeaves evs)

/-- `BuildEventRoot`: root of the exit tree of an epoch, the zero hash
for an epoch with no events.  `readFails` models a failing store read. -/
def buildEventRoot (readFails : Bool) (st : StoreState) (epoch : Nat) : Except Err MHash :=
  if readFails then .error .storeRead
  else
    let exitEvents := getExitEventsByEpoch st epoch
    if exitEvents.length == 0 then .ok zeroHash
    else
      match createExitTree exitEvents with
      | none => .error .emptyTree
      | some root => .ok root

/-!
## Event extraction (`parseEvent`, `decodeExitEvent`)
-/

/-- First log topic identifying an exit event (`exitEvent.Sig()`). -/
def exitEventSig : Nat := 1

/-- First log topic identifying a slashed event (`slashedEvent.Sig()`). -/
def slashedEventSig : Nat := 2

/-- A log as consumed by `parseEvent`: its first topic, the decoded
payload fields, and whether structural decoding succeeds. -/
structure Log where
  topic0 : Nat
  exitID : Nat
  payload : List Nat
  decodeOk : Bool
  deriving DecidableEq, Repr

/-- A decoded domain event, the two cases `PostBlock` dispatches on. -/
inductive DomainEvent where
  | exit (e : ExitEvent)
  | slashed (exitID : Nat)
  deriving DecidableEq, Repr

/-- `decodeExitEvent`: build the `ExitEvent` for a matching log, with
the attributed epoch and block number. -/
def decodeExitEvent (l : Log) (epoch block : Nat) : Except Err ExitEvent :=
  if l.decodeOk then .ok ⟨l.exitID, epoch, block, l.payload⟩ else .error .decodeLog

/-- `parseEvent`: dispatch a log on its first topic.  Returns the
decoded event plus the match flag; any other topic yields
`(none, false)` with no error. -/
def parseEvent (h : Header) (l : Log) : Except Err (Option DomainEvent × Bool) :=
  if l.topic0 == exitEventSig then
    match GetIbftExtra h with
    | .error e => .error e
    | .ok extra =>
      let epoch := extra.checkpoint.epochNumber
      let block := h.number
      let (epoch, block) :=
        if extra.validators.isSome then (epoch + 1, block + 1) else (epoch, block)
      match decodeExitEvent l epoch block with
      | .error e => .error e
      | .ok event => .ok (some (.exit event), true)
  else if l.topic0 == slashedEventSig then
    if l.decodeOk then .ok (some (.slashed l.exitID), true) else .error .decodeLog
  else
    .ok (none, false)

/-!
## Block-finalization hook (`PostBlock`) and checkpoint cadence
-/

/-- `isCheckpointBlock`: epoch-ending blocks and blocks offset from the
last sent block by the checkpoint interval are due a checkpoint. -/
def isCheckpointBlock (lastSentBlock blockNumber checkpointsOffset : Nat)
    (isEpochEndingBlock : Bool) : Bool :=
  isEpochEndingBlock || blockNumber == lastSentBlock + checkpointsOffset

/-- Injected store faults for one `PostBlock` run (boltDb operations
can fail; each flag fails the corresponding store call). -/
structure PBFaults where
  getLastSavedFails : Bool
  insertFails : Bool
  updateFails : Bool
  removeFails : Bool
  deriving DecidableEq, Repr

/-- Environment of one `PostBlock` run: this node's key address, the
event extraction outcome (`eventsGetter.getFromBlocks`, keyed by the
watermark it reads), and the injected store faults. -/
structure PBEnv where
  keyAddress : List Nat
  getFromBlocks : Nat → Except Err (List DomainEvent)
  faults : PBFaults

/-- The `PostBlockRequest` fields `PostBlock` reads. -/
structure PostBlockRequest where
  blockNumber : Nat
  miner : List Nat
  isEpochEndingBlock : Bool
  epoch : Nat
  checkpointInterval : Nat
  deriving DecidableEq, Repr

/-- Result of a `PostBlock` run: the store state as left behind
(including mutations made before a failure), the in-memory
`lastSentBlock`, whether a background checkpoint submission was
launched, and the returned error (if any). -/
structure PBResult where
  store : StoreState
  lastSentBlock : Nat
  launchedCheckpoint : Bool
  err : Option Err
  deriving DecidableEq, Repr

/-- The `case *ExitEvent` arm of `PostBlock`'s type switch: the exit
events among the extracted events, in extraction order. -/
def extractExitEvents (events : List DomainEvent) : List ExitEvent :=
  events.filterMap (fun ev => match ev with | .exit e => some e | _ => none)

/-- The `case *SlashedEvent` arm of `PostBlock`'s type switch: the
slashed exit IDs among the extracted events (`processedExitIDs`). -/
def extractSlashedIDs (events : List DomainEvent) : List Nat :=
  events.filterMap (fun ev => match ev with | .slashed exitID => some exitID | _ => none)

/-- `PostBlock`: read the watermark, extract the block range's events,
split by type, sort exit events by ID, persist them, advance the
watermark, drop slashed IDs from the pending queue, then (for a due
block produced by this node) launch checkpoint submission in the
background and record `lastSentBlock`.  `_bgSubmitFails` models the
eventual outcome of the background submission; `PostBlock` ignores it
(fire-and-forget). -/
def PostBlock (env : PBEnv) (req : PostBlockRequest) (st : StoreState)
    (lastSentBlock : Nat) (_bgSubmitFails : Bool) : PBResult :=
  if env.faults.getLastSavedFails then ⟨st, lastSentBlock, false, some .storeRead⟩
  else
    match env.getFromBlocks st.lastSaved with
    | .error e => ⟨st, lastSentBlock, false, some e⟩
    | .ok events =>
      let sortedExits := sortByID (extractExitEvents events)
      let slashedIDs := extractSlashedIDs events
      if env.faults.insertFails then ⟨st, lastSentBlock, false, some .insertFailed⟩
      else
        let st1 := insertExitEvents st sortedExits
        if env.faults.updateFails then ⟨st1, lastSentBlock, false, some .updateFailed⟩
        else
          let st2 := updateLastSaved st1 req.blockNumber
          if env.faults.removeFails then ⟨st2, lastSentBlock, false, some .removeFailed⟩
          else
            let st3 := removeSlashExitEvents st2 slashedIDs
            if isCheckpointBlock lastSentBlock req.blockNumber req.checkpointInterval
                  req.isEpochEndingBlock
                && env.keyAddress == req.miner then
              ⟨st3, req.blockNumber, true, none⟩
            else
              ⟨st3, lastSentBlock, false, none⟩

/-!
## Exit proof generation (`GenerateExitProof`, `GenerateSlashExitProofs`)
-/

/-- Environment of proof generation: the store, the root chain's
`getCheckpointBlock` answer (`(isFound, checkpointBlock)`, or a
transient RPC error), and the pending-slash-ID read outcome. -/
structure ProofEnv where
  store : StoreState
  getCheckpointBlock : Nat → Except Err (Bool × Nat)
  pendingSlashExitIDs : Except Err (List Nat)

/-- A generated exit proof: `types.Proof` with the metadata fields
`GenerateExitProof` attaches. -/
structure ProofResult where
  proof : List (Bool × MHash)
  leafIndex : Nat
  exitEvent : ExitEvent
  checkpointBlock : Nat
  deriving DecidableEq, Repr

/-- `GenerateExitProof`: look up the exit event, ask the root chain for
the covering checkpoint block (NotFound when `isFound` is false),
rebuild the tree over the epoch's events with
`BlockNumber ≤ checkpointBlock`, and produce the inclusion proof and
leaf index of the event's encoding. -/
def generateExitProof (env : ProofEnv) (exitID : Nat) : Except Err ProofResult := do
  let exitEvent ← getExitEvent env.store exitID
  let (isFound, checkpointBlock) ← env.getCheckpointBlock exitEvent.blockNumber
  if isFound then
    let e := encodeExit exitEvent
    let exitEvents := getExitEventsForProof env.store exitEvent.epochNumber checkpointBlock
    match createExitTree exitEvents with
    | none => .error .emptyTree
    | some _root =>
      match leafIndexOf (exitEvents.map encodeExit) e with
      | none => .error .leafNotFound
      | some leafIndex =>
        .ok { proof := genProof (exitLeaves exitEvents) leafIndex
              leafIndex := leafIndex
              exitEvent := exitEvent
              checkpointBlock := checkpointBlock }
  else
    .error (.checkpointBlockNotFound exitID)

/-- The per-ID loop of `GenerateSlashExitProofs`: a failing single
proof is logged and skipped, a successful one appended. -/
def slashProofsLoop (env : ProofEnv) (ids : List Nat) (acc : List ProofResult) :
    List ProofResult :=
  match ids with
  | [] => acc
  | exitID :: rest =>
    match generateExitProof env exitID with
    | .error _ => slashProofsLoop env rest acc
    | .ok proof => slashProofsLoop env rest (acc ++ [proof])

/-- `GenerateSlashExitProofs`: read the pending-slash IDs (an error
there is the only error surfaced) and run the best-effort per-ID
loop. -/
def generateSlashExitProofs (env : ProofEnv) : Except Err (List ProofResult) :=
  match env.pendingSlashExitIDs with
  | .error _ => .error .pendingReadFailed
  | .ok ids => .ok (slashProofsLoop env ids [])

/-!
## Canonical ordering lemmas (claim C2)
-/

/-- A list sorted by `idLe` whose IDs are pairwise distinct is sorted
strictly. -/
theorem sorted_idLt_of_sorted_idLe (l : List ExitEvent) (hs : l.Sorted idLe)
    (hn : (l.map ExitEvent.id).Nodup) : l.Sorted idLt := by
  induction l with
  | nil => simp
  | cons a t ih =>
    rw [List.sorted_cons] at hs ⊢
    rw [List.map_cons, List.nodup_cons] at hn
    refine ⟨fun b hb => ?_, ih hs.2 hn.2⟩
    have hle : a.id ≤ b.id := hs.1 b hb
    have hne : a.id ≠ b.id := by
      intro hcontra
      exact hn.1 (hcontra ▸ List.mem_map_of_mem ExitEvent.id hb)
    exact Nat.lt_of_le_of_ne hle hne

/-- `sortByID` is a permutation of its input. -/
theorem sortByID_perm (l : List ExitEvent) : (sortByID l).Perm l :=
  List.perm_insertionSort idLe l

/-- Two permutations of one event set with pairwise-distinct IDs sort
to the same list. -/
theorem sortByID_eq_of_perm (l1 l2 : List ExitEvent) (hp : l1.Perm l2)
    (hn : (l1.map ExitEvent.id).Nodup) : sortByID l1 = sortByID l2 := by
  have hn2 : (l2.map ExitEvent.id).Nodup := (hp.map ExitEvent.id).nodup hn
  have hperm : (sortByID l1).Perm (sortByID l2) :=
    ((sortByID_perm l1).trans hp).trans (sortByID_perm l2).symm
  have hs1 : (sortByID l1).Sorted idLt := by
    refine sorted_idLt_of_sorted_idLe _ (List.sorted_insertionSort idLe l1) ?_
    exact (((sortByID_perm l1).map ExitEvent.id).nodup_iff).mpr hn
  have hs2 : (sortByID l2).Sorted idLt := by
    refine sorted_idLt_of_sorted_idLe _ (List.sorted_insertionSort idLe l2) ?_
    exact (((sortByID_perm l2).map ExitEvent.id).nodup_iff).mpr hn2
  exact List.eq_of_perm_of_sorted hperm hs1 hs2

/-- Claim C2: for every set of exit events with pairwise-distinct IDs,
the leaf order obtained by `PostBlock`'s ID sort is independent of the
order the events arrived in, and hence `BuildEventRoot` over the stores
they were inserted into computes bit-identical roots. -/
theorem event_root_insertion_order_independent (st0 : StoreState)
    (l1 l2 : List ExitEvent) (epoch : Nat) (hp : l1.Perm l2)
    (hn : (l1.map ExitEvent.id).Nodup) :
    sortByID l1 = sortByID l2 ∧
    buildEventRoot false (insertExitEvents st0 (sortByID l1)) epoch =
      buildEventRoot false (insertExitEvents st0 (sortByID l2)) epoch := by
  have h := sortByID_eq_of_perm l1 l2 hp hn
  exact ⟨h, by rw [h]⟩

/-- Witness for C2: two insertion orders of the same two events. -/
theorem event_root_insertion_order_independent_witness :
    ([⟨2, 5, 1, [7]⟩, ⟨1, 5, 1, [9]⟩] : List ExitEvent).Perm
        [⟨1, 5, 1, [9]⟩, ⟨2, 5, 1, [7]⟩] ∧
    sortByID [⟨2, 5, 1, [7]⟩, ⟨1, 5, 1, [9]⟩] =
        sortByID [⟨1, 5, 1, [9]⟩, ⟨2, 5, 1, [7]⟩] ∧
    buildEventRoot false (insertExitEvents ⟨[], 0, []⟩
        (sortByID [⟨2, 5, 1, [7]⟩, ⟨1, 5, 1, [9]⟩])) 5 =
      buildEventRoot false (insertExitEvents ⟨[], 0, []⟩
        (sortByID [⟨1, 5, 1, [9]⟩, ⟨2, 5, 1, [7]⟩])) 5 := by
  have hp : ([⟨2, 5, 1, [7]⟩, ⟨1, 5, 1, [9]⟩] : List ExitEvent).Perm
      [⟨1, 5, 1, [9]⟩, ⟨2, 5, 1, [7]⟩] := by decide
  have h := event_root_insertion_order_independent ⟨[], 0, []⟩
    [⟨2, 5, 1, [7]⟩, ⟨1, 5, 1, [9]⟩] [⟨1, 5, 1, [9]⟩, ⟨2, 5, 1, [7]⟩] 5 hp (by decide)
  exact ⟨hp, h.1, h.2⟩

/-!
## Catch-up submission scenario (claim C1)

Root-chain cursor at block 10, finalized headers up to block 40;
epochs: blocks 1–15 are epoch 1, 16–25 epoch 2, 26–40 epoch 3, so the
epoch-ending blocks of the range are 15, 25 and 40 (the caller's
end-of-epoch block).
-/

/-- Epoch number of a block in the C1 scenario. -/
def epochOfC1 (n : Nat) : Nat := if n ≤ 15 then 1 else if n ≤ 25 then 2 else 3

/-- Whether a block is epoch-ending in the C1 scenario. -/
def isEpochEndC1 (n : Nat) : Bool := n == 15 || n == 25 || n == 40

/-- Header extra of block `n` in the C1 scenario. -/
def extraC1 (n : Nat) : Extra :=
  { checkpoint := { epochNumber := epochOfC1 n, blockRound := 0,
                    currentValidatorsHash := 0, eventRoot := 0 }
    committedSignature := 0
    committedBitmap := 0
    validators := if isEpochEndC1 n then some [n] else none }

/-- Header of block `n` in the C1 scenario. -/
def headerC1 (n : Nat) : Header :=
  { number := n, hash := n, miner := [], extraData := some (extraC1 n) }

/-- Environment of the C1 scenario: 40 finalized headers, cursor at 10,
all root-chain calls succeed, `GetValidators n` answers `[n]`. -/
def envC1 : SubmitEnv :=
  { getHeaderByNumber := fun n => if 1 ≤ n && n ≤ 40 then some (headerC1 n) else none
    getValidators := fun n => .ok [n]
    latestCheckpointBlock := .ok 10
    send := fun _ => .ok () }

/-- Claim C1: with the cursor at 10 and epoch-ending blocks 15, 25, 40,
`submitCheckpoint` for block 40 issues exactly three submissions — for
blocks 15, 25 and 40 — each tagged end-of-epoch with its block's epoch
number, and the next validator set is fetched and included for the
submissions for 25 and 40 (indeed for all three). -/
theorem submitCheckpoint_catchup_scenario :
    (submitCheckpoint envC1 (headerC1 40) true).map
        (List.map fun s => (s.blockNumber, s.epochNumber, s.isEndOfEpoch, s.nextValidatorSet)) =
      .ok [(15, 1, true, [15]), (25, 2, true, [25]), (40, 3, true, [40])] := by
  rfl

/-!
## Final-submission metadata (claim C10)
-/

/-- Unfolding of the catch-up loop with no remaining iterations. -/
theorem catchupLoopAux_zero (env : SubmitEnv) (bn : Nat) (ph : Header) (pe : Extra)
    (acc : List Submission) (cur : Option Extra) :
    catchupLoopAux env 0 bn ph pe acc cur = .ok (acc, cur) := rfl

/-- Unfolding of the catch-up loop with at least one remaining
iteration. -/
theorem catchupLoopAux_succ (env : SubmitEnv) (fuel bn : Nat) (ph : Header) (pe : Extra)
    (acc : List Submission) (cur : Option Extra) :
    catchupLoopAux env (fuel + 1) bn ph pe acc cur =
      match env.getHeaderByNumber bn with
      | none => .error (.blockNotFound bn)
      | some currentHeader =>
        match GetIbftExtra currentHeader with
        | .error e => .error e
        | .ok cExtra =>
          if bn == 1 ||
              pe.checkpoint.epochNumber == cExtra.checkpoint.epochNumber then
            catchupLoopAux env fuel (bn + 1) currentHeader cExtra acc (some cExtra)
          else
            match encodeAndSendCheckpoint env ph pe true with
            | .error e => .error e
            | .ok sub =>
              catchupLoopAux env fuel (bn + 1) currentHeader cExtra
                (acc ++ [sub]) (some cExtra) := rfl

/-- Fields of a submission produced by `encodeAndSendCheckpoint`. -/
theorem encodeAndSendCheckpoint_fields (env : SubmitEnv) (h : Header) (ex : Extra)
    (b : Bool) (s : Submission) (hok : encodeAndSendCheckpoint env h ex b = .ok s) :
    s.blockNumber = h.number ∧ s.epochNumber = ex.checkpoint.epochNumber ∧
      s.isEndOfEpoch = b ∧ s.extra = ex := by
  unfold encodeAndSendCheckpoint at hok
  simp only [bind, Except.bind, pure, Except.pure] at hok
  cases b with
  | false =>
    simp only [Bool.false_eq_true, if_false] at hok
    cases hs : env.send h.number with
    | error e => simp only [hs] at hok; simp at hok
    | ok u =>
      simp only [hs, Except.ok.injEq] at hok
      subst hok
      simp
  | true =>
    simp only [if_true] at hok
    cases hv : env.getValidators h.number with
    | error e => simp only [hv] at hok; simp at hok
    | ok nv =>
      simp only [hv] at hok
      cases hs : env.send h.number with
      | error e => simp only [hs] at hok; simp at hok
      | ok u =>
        simp only [hs, Except.ok.injEq] at hok
        subst hok
        simp

/-- If the catch-up loop runs at least one iteration and returns
successfully, its final `currentExtra` is the decoded extra of the last
walked block (`blockNumber + fuel`, the loop's upper bound). -/
theorem catchupLoopAux_last_extra (env : SubmitEnv) (fuel : Nat) :
    ∀ (blockNumber : Nat) (ph : Header) (pe : Extra) (acc : List Submission)
      (cur : Option Extra) (subs : List Submission) (out : Option Extra),
      catchupLoopAux env (fuel + 1) blockNumber ph pe acc cur = .ok (subs, out) →
      ∃ hdr e, env.getHeaderByNumber (blockNumber + fuel) = some hdr ∧
        GetIbftExtra hdr = .ok e ∧ out = some e := by
  induction fuel with
  | zero =>
    intro bn ph pe acc cur subs out hok
    rw [catchupLoopAux_succ] at hok
    cases hh : env.getHeaderByNumber bn with
    | none => simp only [hh] at hok; exact Except.noConfusion hok
    | some ch =>
      simp only [hh] at hok
      cases he : GetIbftExtra ch with
      | error e => simp only [he] at hok; exact Except.noConfusion hok
      | ok cExtra =>
        simp only [he] at hok
        refine ⟨ch, cExtra, by simpa using hh, he, ?_⟩
        by_cases hc : (bn == 1 ||
            pe.checkpoint.epochNumber == cExtra.checkpoint.epochNumber) = true
        · rw [if_pos hc, catchupLoopAux_zero] at hok
          simp at hok
          exact hok.2.symm
        · rw [if_neg hc] at hok
          cases hsend : encodeAndSendCheckpoint env ph pe true with
          | error e => simp only [hsend] at hok; exact Except.noConfusion hok
          | ok sub =>
            simp only [hsend] at hok
            rw [catchupLoopAux_zero] at hok
            simp at hok
            exact hok.2.symm
  | succ f ih =>
    intro bn ph pe acc cur subs out hok
    rw [catchupLoopAux_succ] at hok
    cases hh : env.getHeaderByNumber bn with
    | none => simp only [hh] at hok; exact Except.noConfusion hok
    | some ch =>
      simp only [hh] at hok
      cases he : GetIbftExtra ch with
      | error e => simp only [he] at hok; exact Except.noConfusion hok
      | ok cExtra =>
        simp only [he] at hok
        have harith : bn + 1 + f = bn + (f + 1) := by omega
        by_cases hc : (bn == 1 ||
            pe.checkpoint.epochNumber == cExtra.checkpoint.epochNumber) = true
        · rw [if_pos hc] at hok
          have := ih (bn + 1) ch cExtra acc (some cExtra) subs out hok
          rwa [harith] at this
        · rw [if_neg hc] at hok
          cases hsend : encodeAndSendCheckpoint env ph pe true with
          | error e => simp only [hsend] at hok; exact Except.noConfusion hok
          | ok sub =>
            simp only [hsend] at hok
            have := ih (bn + 1) ch cExtra (acc ++ [sub]) (some cExtra) subs out hok
            rwa [harith] at this

/-- Claim C10: every successful `submitCheckpoint` run ends with a
submission for `latest` whose metadata is the extra decoded from
`latest`'s own extra data — whether the catch-up walk ran (its last
decoded extra is `latest`'s, as the walk ends at `latest.number`
inclusive) or not (the extra is decoded from `latest` directly). -/
theorem submitCheckpoint_final_uses_latest_extra (env : SubmitEnv) (latest : Header)
    (isEndOfEpoch : Bool) (subs : List Submission)
    (hlatest : env.getHeaderByNumber latest.number = some latest)
    (hok : submitCheckpoint env latest isEndOfEpoch = .ok subs) :
    ∃ e sub, GetIbftExtra latest = .ok e ∧ subs.getLast? = some sub ∧
      sub.extra = e ∧ sub.blockNumber = latest.number ∧
      sub.isEndOfEpoch = isEndOfEpoch := by
  unfold submitCheckpoint at hok
  simp only [bind, Except.bind, pure, Except.pure] at hok
  cases hl : env.latestCheckpointBlock with
  | error e => simp only [hl] at hok; exact Except.noConfusion hok
  | ok lcb =>
    simp only [hl] at hok
    by_cases hlt : lcb + 1 < latest.number
    · rw [if_pos hlt] at hok
      cases hph : env.getHeaderByNumber (lcb + 1) with
      | none => simp only [hph] at hok; exact Except.noConfusion hok
      | some ph =>
        simp only [hph] at hok
        cases hpe : GetIbftExtra ph with
        | error e => simp only [hpe] at hok; exact Except.noConfusion hok
        | ok pe =>
          simp only [hpe] at hok
          cases hloop : catchupLoop env latest (lcb + 1 + 1) ph pe [] none with
          | error e => simp only [hloop] at hok; exact Except.noConfusion hok
          | ok p =>
            obtain ⟨subs0, out⟩ := p
            simp only [hloop] at hok
            have hfuel : latest.number + 1 - (lcb + 1 + 1) =
                (latest.number - lcb - 2) + 1 := by omega
            have hloop' : catchupLoopAux env ((latest.number - lcb - 2) + 1)
                (lcb + 1 + 1) ph pe [] none = .ok (subs0, out) := by
              unfold catchupLoop at hloop
              rwa [hfuel] at hloop
            obtain ⟨hdr, e, hhdr, he, hout⟩ :=
              catchupLoopAux_last_extra env (latest.number - lcb - 2)
                (lcb + 1 + 1) ph pe [] none subs0 out hloop'
            have harith : lcb + 1 + 1 + (latest.number - lcb - 2) = latest.number := by
              omega
            rw [harith] at hhdr
            have hhdr' : hdr = latest := by
              rw [hlatest] at hhdr
              exact (Option.some.injEq _ _).mp hhdr.symm
            rw [hhdr'] at he
            cases hsend : encodeAndSendCheckpoint env latest e isEndOfEpoch with
            | error e2 =>
              simp only [hout, hsend] at hok
              exact Except.noConfusion hok
            | ok sub =>
              simp only [hout, hsend, Except.ok.injEq] at hok
              subst hok
              obtain ⟨hbn, _hep, hend, hex⟩ :=
                encodeAndSendCheckpoint_fields env latest e isEndOfEpoch sub hsend
              exact ⟨e, sub, he, by simp, hex, hbn, hend⟩
    · rw [if_neg hlt] at hok
      cases hfe : GetIbftExtra latest with
      | error e => simp only [hfe] at hok; exact Except.noConfusion hok
      | ok e =>
        simp only [hfe] at hok
        cases hsend : encodeAndSendCheckpoint env latest e isEndOfEpoch with
        | error e2 => simp only [hsend] at hok; exact Except.noConfusion hok
        | ok sub =>
          simp only [hsend, Except.ok.injEq] at hok
          subst hok
          obtain ⟨hbn, _hep, hend, hex⟩ :=
            encodeAndSendCheckpoint_fields env latest e isEndOfEpoch sub hsend
          exact ⟨e, sub, rfl, by simp, hex, hbn, hend⟩

/-- Witness for C10 at the C1 scenario. -/
theorem submitCheckpoint_final_uses_latest_extra_witness :
    envC1.getHeaderByNumber (headerC1 40).number = some (headerC1 40) ∧
    ∃ e sub, GetIbftExtra (headerC1 40) = .ok e ∧
      ((submitCheckpoint envC1 (headerC1 40) true).toOption.getD []).getLast? = some sub ∧
      sub.extra = e ∧ sub.blockNumber = (headerC1 40).number ∧ sub.isEndOfEpoch = true :=
  ⟨rfl, submitCheckpoint_final_uses_latest_extra envC1 (headerC1 40) true
    ((submitCheckpoint envC1 (headerC1 40) true).toOption.getD []) rfl rfl⟩

/-!
## Watermark invariant and checkpoint launch (claims C3 and C8)
-/

/-- Claim C3: `PostBlock` persists the extracted exit events before it
advances the watermark; a failing insertion or watermark update makes
`PostBlock` return an error and skip all later steps, so the watermark
never moves past a block whose events were not persisted. -/
theorem postBlock_watermark_invariant (env : PBEnv) (req : PostBlockRequest)
    (st : StoreState) (ls : Nat) (b : Bool) :
    ((PostBlock env req st ls b).store.lastSaved ≠ st.lastSaved →
      ∃ evs, env.getFromBlocks st.lastSaved = .ok evs ∧
        (PostBlock env req st ls b).store.lastSaved = req.blockNumber ∧
        (PostBlock env req st ls b).store.exitEvents =
          st.exitEvents ++ sortByID (extractExitEvents evs)) ∧
    (env.faults.insertFails = true →
      (PostBlock env req st ls b).err ≠ none ∧
      (PostBlock env req st ls b).store = st ∧
      (PostBlock env req st ls b).lastSentBlock = ls ∧
      (PostBlock env req st ls b).launchedCheckpoint = false) ∧
    (env.faults.updateFails = true →
      (PostBlock env req st ls b).err ≠ none ∧
      (PostBlock env req st ls b).store.lastSaved = st.lastSaved ∧
      (PostBlock env req st ls b).store.pendingSlash = st.pendingSlash ∧
      (PostBlock env req st ls b).lastSentBlock = ls ∧
      (PostBlock env req st ls b).launchedCheckpoint = false) := by
  obtain ⟨key, gfb, ⟨fg, fi, fu, fr⟩⟩ := env
  cases fg <;> cases fi <;> cases fu <;> cases fr <;> cases hev : gfb st.lastSaved
  all_goals simp [PostBlock, insertExitEvents, updateLastSaved, removeSlashExitEvents, hev]
  all_goals (try split)
  all_goals simp_all

/-- Witness for C3: a failing insertion, a failing watermark update,
and a successful advance over one extracted exit event. -/
theorem postBlock_watermark_invariant_witness :
    ((PostBlock ⟨[1], fun _ => .ok [], ⟨false, true, false, false⟩⟩
        ⟨5, [1], true, 1, 2⟩ ⟨[], 0, []⟩ 0 false).err ≠ none ∧
      (PostBlock ⟨[1], fun _ => .ok [], ⟨false, true, false, false⟩⟩
        ⟨5, [1], true, 1, 2⟩ ⟨[], 0, []⟩ 0 false).store = ⟨[], 0, []⟩ ∧
      (PostBlock ⟨[1], fun _ => .ok [], ⟨false, true, false, false⟩⟩
        ⟨5, [1], true, 1, 2⟩ ⟨[], 0, []⟩ 0 false).lastSentBlock = 0 ∧
      (PostBlock ⟨[1], fun _ => .ok [], ⟨false, true, false, false⟩⟩
        ⟨5, [1], true, 1, 2⟩ ⟨[], 0, []⟩ 0 false).launchedCheckpoint = false) ∧
    ((PostBlock ⟨[1], fun _ => .ok [], ⟨false, false, true, false⟩⟩
        ⟨5, [1], true, 1, 2⟩ ⟨[], 0, []⟩ 0 false).err ≠ none ∧
      (PostBlock ⟨[1], fun _ => .ok [], ⟨false, false, true, false⟩⟩
        ⟨5, [1], true, 1, 2⟩ ⟨[], 0, []⟩ 0 false).store.lastSaved = 0 ∧
      (PostBlock ⟨[1], fun _ => .ok [], ⟨false, false, true, false⟩⟩
        ⟨5, [1], true, 1, 2⟩ ⟨[], 0, []⟩ 0 false).store.pendingSlash = [] ∧
      (PostBlock ⟨[1], fun _ => .ok [], ⟨false, false, true, false⟩⟩
        ⟨5, [1], true, 1, 2⟩ ⟨[], 0, []⟩ 0 false).lastSentBlock = 0 ∧
      (PostBlock ⟨[1], fun _ => .ok [], ⟨false, false, true, false⟩⟩
        ⟨5, [1], true, 1, 2⟩ ⟨[], 0, []⟩ 0 false).launchedCheckpoint = false) ∧
    (∃ evs, (⟨[1], fun _ => .ok [.exit ⟨3, 1, 4, [2]⟩], ⟨false, false, false, false⟩⟩ :
          PBEnv).getFromBlocks (⟨[], 0, []⟩ : StoreState).lastSaved = .ok evs ∧
      (PostBlock ⟨[1], fun _ => .ok [.exit ⟨3, 1, 4, [2]⟩], ⟨false, false, false, false⟩⟩
        ⟨5, [1], true, 1, 2⟩ ⟨[], 0, []⟩ 0 false).store.lastSaved = 5 ∧
      (PostBlock ⟨[1], fun _ => .ok [.exit ⟨3, 1, 4, [2]⟩], ⟨false, false, false, false⟩⟩
        ⟨5, [1], true, 1, 2⟩ ⟨[], 0, []⟩ 0 false).store.exitEvents =
        [] ++ sortByID (extractExitEvents evs)) :=
  ⟨(postBlock_watermark_invariant ⟨[1], fun _ => .ok [], ⟨false, true, false, false⟩⟩
      ⟨5, [1], true, 1, 2⟩ ⟨[], 0, []⟩ 0 false).2.1 rfl,
   (postBlock_watermark_invariant ⟨[1], fun _ => .ok [], ⟨false, false, true, false⟩⟩
      ⟨5, [1], true, 1, 2⟩ ⟨[], 0, []⟩ 0 false).2.2 rfl,
   (postBlock_watermark_invariant
      ⟨[1], fun _ => .ok [.exit ⟨3, 1, 4, [2]⟩], ⟨false, false, false, false⟩⟩
      ⟨5, [1], true, 1, 2⟩ ⟨[], 0, []⟩ 0 false).1 (by decide)⟩

/-- Claim C8: `PostBlock` launches a background checkpoint submission
exactly when this node mined the block and the checkpoint-due policy
holds; on launch it records `lastSentBlock` immediately, and its result
never depends on whether the background submission later fails. -/
theorem postBlock_checkpoint_launch (env : PBEnv) (req : PostBlockRequest)
    (st : StoreState) (ls : Nat) (b b' : Bool) (evs : List DomainEvent)
    (hf : env.faults = ⟨false, false, false, false⟩)
    (hev : env.getFromBlocks st.lastSaved = .ok evs) :
    (PostBlock env req st ls b).err = none ∧
    ((PostBlock env req st ls b).launchedCheckpoint = true ↔
      (env.keyAddress = req.miner ∧
        (req.isEpochEndingBlock = true ∨ req.blockNumber = ls + req.checkpointInterval))) ∧
    ((PostBlock env req st ls b).launchedCheckpoint = true →
      (PostBlock env req st ls b).lastSentBlock = req.blockNumber) ∧
    ((PostBlock env req st ls b).launchedCheckpoint = false →
      (PostBlock env req st ls b).lastSentBlock = ls) ∧
    PostBlock env req st ls b = PostBlock env req st ls b' := by
  obtain ⟨key, gfb, f⟩ := env
  simp only at hf
  subst hf
  cases hB : req.isEpochEndingBlock
  all_goals refine ⟨?_, ?_, ?_, ?_, rfl⟩
  all_goals simp [PostBlock, hev, isCheckpointBlock, hB, insertExitEvents, updateLastSaved,
    removeSlashExitEvents]
  all_goals (try split)
  all_goals (try split)
  all_goals (try simp_all [Bool.not_eq_true])
  all_goals tauto

/-- Environment for the C8 witness. -/
def envC8 : PBEnv := ⟨[9], fun _ => .ok [], ⟨false, false, false, false⟩⟩

/-- Request for the C8 witness: block 7, mined by this node, not
epoch-ending, checkpoint interval 7. -/
def reqC8 : PostBlockRequest := ⟨7, [9], false, 1, 7⟩

/-- Witness for C8: with `lastSentBlock = 0` and interval 7, block 7 is
due and mined by this node, so the checkpoint launches. -/
theorem postBlock_checkpoint_launch_witness :
    (PostBlock envC8 reqC8 ⟨[], 0, []⟩ 0 false).err = none ∧
    ((PostBlock envC8 reqC8 ⟨[], 0, []⟩ 0 false).launchedCheckpoint = true ↔
      (envC8.keyAddress = reqC8.miner ∧
        (reqC8.isEpochEndingBlock = true ∨
          reqC8.blockNumber = 0 + reqC8.checkpointInterval))) ∧
    ((PostBlock envC8 reqC8 ⟨[], 0, []⟩ 0 false).launchedCheckpoint = true →
      (PostBlock envC8 reqC8 ⟨[], 0, []⟩ 0 false).lastSentBlock = reqC8.blockNumber) ∧
    ((PostBlock envC8 reqC8 ⟨[], 0, []⟩ 0 false).launchedCheckpoint = false →
      (PostBlock envC8 reqC8 ⟨[], 0, []⟩ 0 false).lastSentBlock = 0) ∧
    PostBlock envC8 reqC8 ⟨[], 0, []⟩ 0 false = PostBlock envC8 reqC8 ⟨[], 0, []⟩ 0 true :=
  postBlock_checkpoint_launch envC8 reqC8 ⟨[], 0, []⟩ 0 false true [] rfl rfl

/-!
## Event attribution, missing checkpoints, empty epochs, batch proofs
(claims C6, C7, C9, C5)
-/

/-- Claim C6: `parseEvent` attributes an exit-event log of an
epoch-ending header (validator set present in the extra) to the next
epoch and a block number one past the header; for any other header it
uses the header's own epoch and number. -/
theorem parseEvent_epoch_attribution (h : Header) (l : Log) (ex : Extra)
    (ht : l.topic0 = exitEventSig) (hex : h.extraData = some ex) (hd : l.decodeOk = true) :
    parseEvent h l = .ok (some (.exit ⟨l.exitID,
      ex.checkpoint.epochNumber + (if ex.validators.isSome then 1 else 0),
      h.number + (if ex.validators.isSome then 1 else 0), l.payload⟩), true) := by
  cases hv : ex.validators with
  | none => simp [parseEvent, GetIbftExtra, decodeExitEvent, ht, hex, hd, hv]
  | some vs => simp [parseEvent, GetIbftExtra, decodeExitEvent, ht, hex, hd, hv]

/-- Extra of the C6 witness header: epoch 4, epoch-ending. -/
def extraC6 : Extra := ⟨⟨4, 0, 0, 0⟩, 0, 0, some []⟩

/-- Witness for C6: an exit log in an epoch-ending header at block 10
is attributed to epoch 5 and block 11. -/
theorem parseEvent_epoch_attribution_witness :
    parseEvent ⟨10, 0, [], some extraC6⟩ ⟨exitEventSig, 2, [3], true⟩ =
      .ok (some (.exit ⟨2,
        extraC6.checkpoint.epochNumber + (if extraC6.validators.isSome then 1 else 0),
        10 + (if extraC6.validators.isSome then 1 else 0), [3]⟩), true) :=
  parseEvent_epoch_attribution ⟨10, 0, [], some extraC6⟩ ⟨exitEventSig, 2, [3], true⟩
    extraC6 rfl rfl rfl

/-- Claim C7: when the root chain answers `isFound = false` for the
exit event's block, `GenerateExitProof` fails with the dedicated
checkpoint-not-found error — an error value distinct from the transient
RPC error — and returns no proof. -/
theorem generateExitProof_checkpoint_notFound (env : ProofEnv) (exitID : Nat)
    (ev : ExitEvent) (cb : Nat)
    (hev : getExitEvent env.store exitID = .ok ev)
    (hcb : env.getCheckpointBlock ev.blockNumber = .ok (false, cb)) :
    generateExitProof env exitID = .error (.checkpointBlockNotFound exitID) ∧
    Err.checkpointBlockNotFound exitID ≠ Err.rpcCall := by
  refine ⟨?_, by simp⟩
  unfold generateExitProof
  simp only [bind, Except.bind, pure, Except.pure]
  rw [hev]
  simp [hcb]

/-- Store of the C7/C4 style witnesses: one exit event with ID 1. -/
def storeC7 : StoreState := ⟨[⟨1, 0, 3, [8]⟩], 0, []⟩

/-- Environment of the C7 witness: the root chain knows no covering
checkpoint. -/
def envC7 : ProofEnv := ⟨storeC7, fun _ => .ok (false, 0), .ok []⟩

/-- Witness for C7. -/
theorem generateExitProof_checkpoint_notFound_witness :
    generateExitProof envC7 1 = .error (.checkpointBlockNotFound 1) ∧
    Err.checkpointBlockNotFound 1 ≠ Err.rpcCall :=
  generateExitProof_checkpoint_notFound envC7 1 ⟨1, 0, 3, [8]⟩ 0 rfl rfl

/-- Claim C9: `BuildEventRoot` of an epoch holding no exit events is
the zero hash with no error; an error arises only from a failing store
read (tree construction of a nonempty epoch cannot fail). -/
theorem buildEventRoot_empty_epoch (st : StoreState) (epoch : Nat) :
    (getExitEventsByEpoch st epoch = [] → buildEventRoot false st epoch = .ok zeroHash) ∧
    (∀ b e, buildEventRoot b st epoch = .error e → b = true) := by
  constructor
  · intro hempty
    simp [buildEventRoot, hempty]
  · intro b e herr
    cases b with
    | true => rfl
    | false =>
      exfalso
      simp only [buildEventRoot, if_false, Bool.false_eq_true] at herr
      by_cases hlen : (getExitEventsByEpoch st epoch).length == 0
      · rw [if_pos hlen] at herr
        exact Except.noConfusion herr
      · rw [if_neg hlen] at herr
        have hne : getExitEventsByEpoch st epoch ≠ [] := by
          intro hcontra
          simp [hcontra] at hlen
        have hsome : (createExitTree (getExitEventsByEpoch st epoch)).isSome := by
          unfold createExitTree
          refine buildRoot_isSome _ ?_
          simp [exitLeaves, hne]
        obtain ⟨r, hr⟩ := Option.isSome_iff_exists.mp hsome
        rw [hr] at herr
        exact Except.noConfusion herr

/-- Witness for C9: an empty store, plus the read-failure error path. -/
theorem buildEventRoot_empty_epoch_witness :
    buildEventRoot false ⟨[], 0, []⟩ 3 = .ok zeroHash ∧ (true : Bool) = true :=
  ⟨(buildEventRoot_empty_epoch ⟨[], 0, []⟩ 3).1 rfl,
   (buildEventRoot_empty_epoch ⟨[], 0, []⟩ 3).2 true .storeRead rfl⟩

/-- The batch loop collects exactly the per-ID successes, in order. -/
theorem slashProofsLoop_eq (env : ProofEnv) (ids : List Nat) (acc : List ProofResult) :
    slashProofsLoop env ids acc =
      acc ++ ids.filterMap (fun exitID => (generateExitProof env exitID).toOption) := by
  induction ids generalizing acc with
  | nil => simp [slashProofsLoop]
  | cons exitID rest ih =>
    cases hgen : generateExitProof env exitID with
    | error e => simp [slashProofsLoop, hgen, ih, Except.toOption]
    | ok p => simp [slashProofsLoop, hgen, ih, Except.toOption]

/-- Claim C5: `GenerateSlashExitProofs` never fails because of an
individual pending ID — it returns exactly the successful proofs — and
errors only when reading the pending-ID list itself fails. -/
theorem generateSlashExitProofs_best_effort (env : ProofEnv) :
    (∀ ids, env.pendingSlashExitIDs = .ok ids →
      generateSlashExitProofs env =
        .ok (ids.filterMap fun exitID => (generateExitProof env exitID).toOption)) ∧
    (∀ e, generateSlashExitProofs env = .error e →
      ∃ e0, env.pendingSlashExitIDs = .error e0) := by
  constructor
  · intro ids hids
    simp [generateSlashExitProofs, hids, slashProofsLoop_eq]
  · intro e herr
    cases hp : env.pendingSlashExitIDs with
    | error e0 => exact ⟨e0, rfl⟩
    | ok ids => simp [generateSlashExitProofs, hp] at herr

/-- Store of the C5 witness: exit events 1 and 3 in epoch 1 (blocks 10
and 12), exit event 2 in epoch 2 (block 20). -/
def storeC5 : StoreState := ⟨[⟨1, 1, 10, [4]⟩, ⟨2, 2, 20, [5]⟩, ⟨3, 1, 12, [6]⟩], 0, [1, 2, 3]⟩

/-- Environment of the C5 witness: block 20 (exit 2) has no covering
checkpoint yet; everything else is covered by checkpoint block 15. -/
def envC5 : ProofEnv :=
  ⟨storeC5, fun bn => if bn == 20 then .ok (false, 0) else .ok (true, 15), .ok [1, 2, 3]⟩

/-- Witness for C5: over pending IDs `[1, 2, 3]` with ID 2 uncovered,
the batch succeeds with exactly the two proofs for IDs 1 and 3. -/
theorem generateSlashExitProofs_best_effort_witness :
    generateSlashExitProofs envC5 =
      .ok ([1, 2, 3].filterMap fun exitID => (generateExitProof envC5 exitID).toOption) ∧
    (generateExitProof envC5 2).toOption = none ∧
    ([1, 2, 3].filterMap fun exitID => (generateExitProof envC5 exitID).toOption).map
        (fun p => p.exitEvent.id) = [1, 3] :=
  ⟨(generateSlashExitProofs_best_effort envC5).1 [1, 2, 3] rfl, rfl, by decide⟩

/-!
## Exit proof verification (claim C4)
-/

theorem exitLeaves_getD (evs : List ExitEvent) (i : Nat) (h : i < evs.length) :
    (exitLeaves evs).getD i mhDefault = .leaf ((evs.map encodeExit).getD i []) := by
  induction evs generalizing i with
  | nil => simp at h
  | cons a t ih =>
    cases i with
    | zero => simp [exitLeaves, List.getD]
    | succ n =>
      have h' : n < t.length := by simp at h; omega
      simp only [exitLeaves, List.map_cons, List.getD_cons_succ]
      exact ih n h'

theorem getD_set_self_mh (l : List MHash) (j : Nat) (x : MHash) (h : j < l.length) :
    (l.set j x).getD j mhDefault = x := by
  induction l generalizing j with
  | nil => simp at h
  | cons a t ih =>
    cases j with
    | zero => simp [List.getD]
    | succ n =>
      have h' : n < t.length := by simp at h; omega
      simp only [List.set_cons_succ, List.getD_cons_succ]
      exact ih n h'

/-- Claim C4: a successful `GenerateExitProof` builds its tree over
exactly the stored events of the exit's epoch with
`BlockNumber ≤ checkpointBlock` (that is what `getExitEventsForProof`
returns), the returned proof and leaf index verify against that tree's
root, and replacing the encoding of any single included leaf yields a
tree whose root the proof no longer verifies against. -/
theorem generateExitProof_verifies (env : ProofEnv) (exitID : Nat) (ev : ExitEvent)
    (res : ProofResult)
    (hev : getExitEvent env.store exitID = .ok ev)
    (hok : generateExitProof env exitID = .ok res) :
    res.exitEvent = ev ∧
    ∃ r, buildRoot (exitLeaves
        (getExitEventsForProof env.store ev.epochNumber res.checkpointBlock)) = some r ∧
      res.leafIndex < (getExitEventsForProof env.store ev.epochNumber res.checkpointBlock).length ∧
      ((getExitEventsForProof env.store ev.epochNumber res.checkpointBlock).map
          encodeExit).getD res.leafIndex [] = encodeExit ev ∧
      res.proof = genProof (exitLeaves
        (getExitEventsForProof env.store ev.epochNumber res.checkpointBlock)) res.leafIndex ∧
      verifyProof res.proof (.leaf (encodeExit ev)) r = true ∧
      ∀ (j : Nat) (d : List Nat),
        j < (getExitEventsForProof env.store ev.epochNumber res.checkpointBlock).length →
        d ≠ ((getExitEventsForProof env.store ev.epochNumber res.checkpointBlock).map
          encodeExit).getD j [] →
        ∃ r2, buildRoot ((exitLeaves
            (getExitEventsForProof env.store ev.epochNumber res.checkpointBlock)).set j
              (.leaf d)) = some r2 ∧
          verifyProof res.proof (.leaf (encodeExit ev)) r2 = false := by
  unfold generateExitProof at hok
  simp only [bind, Except.bind, pure, Except.pure] at hok
  rw [hev] at hok
  cases hcb : env.getCheckpointBlock ev.blockNumber with
  | error e => simp only [hcb] at hok; exact Except.noConfusion hok
  | ok p =>
    obtain ⟨isFound, cb⟩ := p
    simp only [hcb] at hok
    cases isFound with
    | false => simp only [Bool.false_eq_true, if_false] at hok; exact Except.noConfusion hok
    | true =>
      simp only [if_true] at hok
      cases hct : createExitTree (getExitEventsForProof env.store ev.epochNumber cb) with
      | none => simp only [hct] at hok; exact Except.noConfusion hok
      | some root =>
        simp only [hct] at hok
        cases hli : leafIndexOf ((getExitEventsForProof env.store ev.epochNumber cb).map
            encodeExit) (encodeExit ev) with
        | none => simp only [hli] at hok; exact Except.noConfusion hok
        | some li =>
          simp only [hli, Except.ok.injEq] at hok
          subst hok
          obtain ⟨hlt, hgetd⟩ := leafIndexOf_spec _ _ _ hli
          rw [List.length_map] at hlt
          refine ⟨rfl, root, hct, hlt, hgetd, rfl, ?_, ?_⟩
          · have hget : (exitLeaves (getExitEventsForProof env.store ev.epochNumber
                cb)).getD li mhDefault = .leaf (encodeExit ev) := by
              rw [exitLeaves_getD _ _ hlt, hgetd]
            have hrec := recomputeRoot_genProof
              (exitLeaves (getExitEventsForProof env.store ev.epochNumber cb)) li
              (by simpa [exitLeaves] using hlt) root hct
            rw [hget] at hrec
            simp [verifyProof, hrec]
          · intro j d hj hd
            have hj' : j < (getExitEventsForProof env.store ev.epochNumber cb).length := hj
            have hd' : d ≠ ((getExitEventsForProof env.store ev.epochNumber cb).map
                encodeExit).getD j [] := hd
            have hjl : j < (exitLeaves (getExitEventsForProof env.store ev.epochNumber
                cb)).length := by simpa [exitLeaves] using hj'
            have hlenS : ((exitLeaves (getExitEventsForProof env.store ev.epochNumber
                cb)).set j (.leaf d)).length =
                (exitLeaves (getExitEventsForProof env.store ev.epochNumber cb)).length := by
              simp
            have hneS : (exitLeaves (getExitEventsForProof env.store ev.epochNumber
                cb)).set j (.leaf d) ≠ [] := by
              intro hcontra
              rw [hcontra] at hlenS
              simp [exitLeaves] at hlenS
              omega
            obtain ⟨r2, hr2⟩ := Option.isSome_iff_exists.mp (buildRoot_isSome _ hneS)
            refine ⟨r2, hr2, ?_⟩
            have hne_root : r2 ≠ root := by
              intro hcontra
              have hbr : buildRoot (exitLeaves (getExitEventsForProof env.store
                  ev.epochNumber cb)) = some root := hct
              have hbr2 : buildRoot ((exitLeaves (getExitEventsForProof env.store
                  ev.epochNumber cb)).set j (.leaf d)) = some root := by
                rw [hr2, hcontra]
              have heq := buildRoot_inj _ _ hlenS (hbr2.trans hbr.symm)
              have hgd := congrArg (fun l => l.getD j mhDefault) heq
              simp only at hgd
              rw [getD_set_self_mh _ _ _ hjl, exitLeaves_getD _ _ hj'] at hgd
              exact hd' ((MHash.leaf.injEq _ _).mp hgd)
            have hget : (exitLeaves (getExitEventsForProof env.store ev.epochNumber
                cb)).getD li mhDefault = .leaf (encodeExit ev) := by
              rw [exitLeaves_getD _ _ hlt, hgetd]
            have hrec := recomputeRoot_genProof
              (exitLeaves (getExitEventsForProof env.store ev.epochNumber cb)) li
              (by simpa [exitLeaves] using hlt) root hct
            rw [hget] at hrec
            simp [verifyProof, hrec]
            intro hcontra
            exact hne_root hcontra.symm

/-- Environment of the C4 witness: every block is covered by checkpoint
block 15. -/
def envC4 : ProofEnv := ⟨storeC5, fun _ => .ok (true, 15), .ok []⟩

/-- The proof `GenerateExitProof` returns for exit ID 1 in `envC4`. -/
def resC4 : ProofResult :=
  { proof := [(false, .leaf [3, 6])], leafIndex := 0,
    exitEvent := ⟨1, 1, 10, [4]⟩, checkpointBlock := 15 }

/-- Witness for C4 at exit ID 1 of `envC4`. -/
theorem generateExitProof_verifies_witness :
    resC4.exitEvent = (⟨1, 1, 10, [4]⟩ : ExitEvent) ∧
    ∃ r, buildRoot (exitLeaves
        (getExitEventsForProof envC4.store (1 : Nat) resC4.checkpointBlock)) = some r ∧
      resC4.leafIndex < (getExitEventsForProof envC4.store 1 resC4.checkpointBlock).length ∧
      ((getExitEventsForProof envC4.store 1 resC4.checkpointBlock).map
          encodeExit).getD resC4.leafIndex [] = encodeExit ⟨1, 1, 10, [4]⟩ ∧
      resC4.proof = genProof (exitLeaves
        (getExitEventsForProof envC4.store 1 resC4.checkpointBlock)) resC4.leafIndex ∧
      verifyProof resC4.proof (.leaf (encodeExit ⟨1, 1, 10, [4]⟩)) r = true ∧
      ∀ (j : Nat) (d : List Nat),
        j < (getExitEventsForProof envC4.store 1 resC4.checkpointBlock).length →
        d ≠ ((getExitEventsForProof envC4.store 1 resC4.checkpointBlock).map
          encodeExit).getD j [] →
        ∃ r2, buildRoot ((exitLeaves
            (getExitEventsForProof envC4.store 1 resC4.checkpointBlock)).set j
              (.leaf d)) = some r2 ∧
          verifyProof resC4.proof (.leaf (encodeExit ⟨1, 1, 10, [4]⟩)) r2 = false :=
  generateExitProof_verifies envC4 1 ⟨1, 1, 10, [4]⟩ resC4 rfl rfl
